import Mathlib

/-!
Verification development for a minimal process-1 service supervisor
(ratos-init). The C source is shallowly embedded: C strings become
`List Char`, the fixed-size buffers become explicit `List.take` bounds
(strncpy/snprintf truncation), the registry array becomes a bounded
`List`, and the process-level effects (fork/exec/kill/waitpid) are
modelled by explicit parameters and action traces. File contents are
modelled as the list of lines returned by fgets.
-/

namespace RatOSInit

/-- C strings are modelled as lists of characters (the bytes up to the
terminating NUL). -/
abbrev Str := List Char

/-- Leading whitespace skipped by `trim`: space and tab only, as in the C
loop `while(*s==' '||*s=='\t') s++;`. -/
def isLeadWS (c : Char) : Bool := c == ' ' || c == '\t'

/-- Trailing characters stripped by `trim`: newline, carriage return,
space and tab, as in the C loop over `end[-1]`. -/
def isTrailWS (c : Char) : Bool := c == '\n' || c == '\r' || c == ' ' || c == '\t'

/-- Embedding of `trim`: drop leading spaces/tabs, then strip trailing
newline/CR/space/tab by writing a NUL at the new end. -/
def trim (s : Str) : Str :=
  ((s.dropWhile isLeadWS).reverse.dropWhile isTrailWS).reverse

/-- ASCII lower-casing of one character, as used by `strcasecmp`. -/
def asciiLower (c : Char) : Char :=
  if 'A' ≤ c ∧ c ≤ 'Z' then Char.ofNat (c.toNat + 32) else c

/-- Embedding of `strcasecmp(a,b)==0`: equality after ASCII
lower-casing both operands. -/
def strcaseEq (a b : Str) : Bool :=
  a.map asciiLower == b.map asciiLower

/-- Embedding of `strchr(line,'=')` followed by `*p=0`: split a line at
its first `=` into the part before and the part after; `none` when the
line has no `=` (such lines are skipped by the parser). -/
def splitFirstEq : Str → Option (Str × Str)
  | [] => none
  | c :: cs =>
    if c == '=' then some ([], cs)
    else
      match splitFirstEq cs with
      | some (k, v) => some (c :: k, v)
      | none => none

/-- Capacity of the `name[128]` buffer as filled by
`strncpy(name,val,sizeof(name)-1)`. -/
def NAME_CAP : Nat := 127

/-- Capacity of the `exec[MAX_LINE]` and `restart[MAX_LINE]` buffers
(`MAX_LINE` is 1024; strncpy copies at most 1023 bytes). -/
def EXEC_CAP : Nat := 1023

/-- Capacity of the `logfile[256]` field as filled by `snprintf`. -/
def LOGFILE_CAP : Nat := 255

/-- Registry capacity `MAX_SVC`. -/
def MAX_SVC : Nat := 128

/-- Log directory `LOGDIR`. -/
def LOGDIR : Str := "/var/log".toList

/-- The three local accumulator buffers of `parse_service_file`:
`name`, `exec` and `restart`. -/
structure ParseAcc where
  name : Str
  exec : Str
  restart : Str
deriving DecidableEq

/-- Initial accumulator state: `name` and `exec` empty, `restart`
holding the string "no". -/
def initAcc : ParseAcc := ⟨[], [], "no".toList⟩

/-- Embedding of one iteration of the fgets loop in
`parse_service_file`: skip lines without `=`; otherwise trim key and
value and, when the key matches `Name` / `ExecStart` / `Restart`
case-insensitively, overwrite the corresponding buffer with the
(truncated) value. The C source tests each key against two spellings
with `strcasecmp`, which is equivalent to a single case-insensitive
comparison. -/
def procLine (acc : ParseAcc) (line : Str) : ParseAcc :=
  match splitFirstEq line with
  | none => acc
  | some (rawKey, rawVal) =>
    let key := trim rawKey
    let val := trim rawVal
    if strcaseEq key ("name".toList) then { acc with name := val.take NAME_CAP }
    else if strcaseEq key ("execstart".toList) then { acc with exec := val.take EXEC_CAP }
    else if strcaseEq key ("restart".toList) then { acc with restart := val.take EXEC_CAP }
    else acc

/-- Accumulator state after processing every line of a file. -/
def parseAccOf (lines : List Str) : ParseAcc :=
  lines.foldl procLine initAcc

/-- A line is an occurrence of `key` exactly when it contains an `=`
and its trimmed key part matches `key` case-insensitively — the same
test `procLine` applies before overwriting the buffer of `key`. -/
def isKeyLine (key : Str) (line : Str) : Bool :=
  match splitFirstEq line with
  | none => false
  | some (rawKey, _) => strcaseEq (trim rawKey) key

/-- Restart policies `R_NO`, `R_ON_FAILURE`, `R_ALWAYS`. -/
inductive restart_t
  | R_NO
  | R_ON_FAILURE
  | R_ALWAYS
deriving DecidableEq

/-- Resolution of the `Restart` value into a policy, as in the tail of
`parse_service_file`: default `R_NO`, then the two case-insensitive
comparisons. -/
def restartOf (r : Str) : restart_t :=
  if strcaseEq r ("always".toList) then restart_t.R_ALWAYS
  else if strcaseEq r ("on-failure".toList) then restart_t.R_ON_FAILURE
  else restart_t.R_NO

/-- The `service` record: configuration fields plus the runtime fields
`pid` and `running`. -/
structure service where
  name : Str
  execcmd : Str
  restart : restart_t
  pid : Nat
  running : Bool
  logfile : Str
deriving DecidableEq

/-- Embedding of `parse_service_file` on the list of lines of one file:
after the fgets loop, a service is produced only when both the `name`
and `exec` buffers are non-empty (`name[0]==0 || exec[0]==0` causes a
silent return, no error); the new entry is zeroed, `name` copied with
strncpy, `execcmd` strdup'd, the policy resolved, and the log path
derived by snprintf as LOGDIR/name.log. -/
def parse_service_file (lines : List Str) : Option service :=
  if (parseAccOf lines).name = [] ∨ (parseAccOf lines).exec = [] then none
  else some
    { name := (parseAccOf lines).name.take NAME_CAP
      execcmd := (parseAccOf lines).exec
      restart := restartOf (parseAccOf lines).restart
      pid := 0
      running := false
      logfile := (LOGDIR ++ "/".toList ++ (parseAccOf lines).name.take NAME_CAP
        ++ ".log".toList).take LOGFILE_CAP }

/-- Embedding of the registry-append part of loading: each parsed file
is appended to the registry unless `nservices >= MAX_SVC`, in which
case the file is silently ignored (the capacity test sits after the
validity test, so invalid files never consume a slot). -/
def loadInto (reg : List service) : List (List Str) → List service
  | [] => reg
  | f :: fs =>
    match parse_service_file f with
    | none => loadInto reg fs
    | some s => if MAX_SVC ≤ reg.length then loadInto reg fs else loadInto (reg ++ [s]) fs

/-- Embedding of `load_services` over the directory's file contents in
enumeration order, starting from the empty registry. -/
def load_services (files : List (List Str)) : List service :=
  loadInto [] files

/-! Process lifecycle model. A child's observable exit is abstracted as
either a normal exit carrying the 8-bit code reported by wait, or a
signal-caused termination; `WIFEXITED`/`WEXITSTATUS` decode it as the C
macros do. -/

/-- Wait status of a reaped child. -/
inductive ExitStatus
  | exited (code : Nat)
  | signaled (sig : Nat)
deriving DecidableEq

/-- Decoding macro WIFEXITED. -/
def WIFEXITED : ExitStatus → Bool
  | ExitStatus.exited _ => true
  | ExitStatus.signaled _ => false

/-- Decoding macro WEXITSTATUS (only meaningful under WIFEXITED, where
it yields the reported code). -/
def WEXITSTATUS : ExitStatus → Nat
  | ExitStatus.exited c => c
  | ExitStatus.signaled _ => 0

/-- Result of one `waitpid(pid, NULL, WNOHANG)` call inside
`stop_service`: the call reaps the child, or reports it still running
(return 0), or fails with ECHILD (return -1) because the child was
already reaped by an earlier call. -/
inductive WaitRes
  | reaped
  | stillRunning
  | noChild
deriving DecidableEq

/-- Kernel-side model of `waitpid(pid, NULL, WNOHANG)` for one child.
The environment parameter `exitAt` gives the index of the first waitpid
call (counting all calls made by this `stop_service` invocation) at
which the child has terminated and is reapable; `none` means the child
never terminates during the stop sequence. A child can be reaped at
most once; afterwards waitpid returns ECHILD. -/
def waitpidNohang (exitAt : Option Nat) (callIdx : Nat) (alreadyReaped : Bool) : WaitRes :=
  if alreadyReaped then WaitRes.noChild
  else
    match exitAt with
    | none => WaitRes.stillRunning
    | some n => if n ≤ callIdx then WaitRes.reaped else WaitRes.stillRunning

/-- Embedding of the polling loop in `stop_service`
(`for (i=0;i<50;i++)`): up to `fuel` non-blocking waits, breaking as
soon as one reaps the child. Returns whether the child was reaped in
the loop and the index of the next waitpid call. -/
def stopPoll (exitAt : Option Nat) : Nat → Nat → Bool × Nat
  | 0, idx => (false, idx)
  | fuel + 1, idx =>
    match waitpidNohang exitAt idx false with
    | WaitRes.reaped => (true, idx + 1)
    | _ => stopPoll exitAt fuel (idx + 1)

/-- Outcome of one `stop_service` call: the updated entry, whether the
graceful SIGTERM was sent to the process group, and whether the
unconditional SIGKILL was sent to the process group. -/
structure StopResult where
  svc : service
  termSent : Bool
  killSent : Bool
deriving DecidableEq

/-- Embedding of `stop_service`: a no-op when the entry is not marked
running; otherwise SIGTERM is sent to the group, the 50-poll grace loop
runs, and SIGKILL is sent to the group exactly when the single
post-loop `waitpid(pid,NULL,WNOHANG)` does not return the pid; finally
the entry is marked not running. -/
def stop_service (exitAt : Option Nat) (s : service) : StopResult :=
  if s.running then
    let r := stopPoll exitAt 50 0
    let fin := waitpidNohang exitAt r.2 r.1
    ⟨{ s with running := false }, true,
      match fin with
      | WaitRes.reaped => false
      | _ => true⟩
  else ⟨s, false, false⟩

/-- Parent-side effect of `start_service`: on fork failure (`forkRes =
none`) the entry is left unchanged (the failure is only logged); on
success the new pid is recorded and the entry marked running. -/
def start_service (forkRes : Option Nat) (s : service) : service :=
  match forkRes with
  | none => s
  | some newPid => { s with pid := newPid, running := true }

/-- Supervisor-side actions taken by `handle_reaped` when it decides to
relaunch: the fixed backoff sleep, then the call to `start_service`. -/
inductive SupAction
  | backoff (secs : Nat)
  | startCall (name : Str)
deriving DecidableEq

/-- Embedding of `handle_reaped`: linear scan for the first entry with
`running` set and a matching pid; if found, mark it not running,
compute `exitcode` (-1 unless WIFEXITED), apply the restart policy
(relaunch when `R_ALWAYS`, or `R_ON_FAILURE` with nonzero exitcode)
with a 1-second backoff before the relaunch, and stop scanning; if no
entry matches, fall off the loop with no effect. Returns the updated
registry and the list of actions taken. -/
def handle_reaped (forkRes : Option Nat) : List service → Nat → ExitStatus → List service × List SupAction
  | [], _, _ => ([], [])
  | s :: rest, p, st =>
    if s.running = true ∧ s.pid = p then
      let s' := { s with running := false }
      let exitcode : Int := if WIFEXITED st then (WEXITSTATUS st : Int) else -1
      if s.restart = restart_t.R_ALWAYS ∨ (s.restart = restart_t.R_ON_FAILURE ∧ exitcode ≠ 0) then
        (start_service forkRes s' :: rest, [SupAction.backoff 1, SupAction.startCall s.name])
      else (s' :: rest, [])
    else
      let r := handle_reaped forkRes rest p st
      (s :: r.1, r.2)

/-- State observed by one iteration of the main supervise loop: the
`need_reap` flag, the queue of children that have terminated but are
not yet reaped (in the order `waitpid(-1, WNOHANG)` will deliver them),
and the registry. -/
structure LoopState where
  need_reap : Bool
  zombies : List (Nat × ExitStatus)
  reg : List service
deriving DecidableEq

/-- Embedding of `sigchld_handler`: the only effect permitted in
signal-delivery context is setting the flag. -/
def sigchld_handler (st : LoopState) : LoopState :=
  { st with need_reap := true }

/-- Embedding of the drain loop
`while ((pid = waitpid(-1,&status,WNOHANG)) > 0) handle_reaped(pid,status);`:
every finished child is reaped and dispatched to `handle_reaped`.
Returns the final registry and the list of pid+status pairs dispatched,
in dispatch order. -/
def drainLoop (forkRes : Option Nat) : List (Nat × ExitStatus) → List service → List service × List (Nat × ExitStatus)
  | [], reg => (reg, [])
  | z :: zs, reg =>
    let reg' := (handle_reaped forkRes reg z.1 z.2).1
    let r := drainLoop forkRes zs reg'
    (r.1, z :: r.2)

/-- Embedding of one iteration of the main supervise loop body: when
`need_reap` is observed set, clear it first, then perform one exhaustive
drain pass; otherwise do nothing. Returns the successor state and the
pid+status pairs dispatched to `handle_reaped` during the pass. -/
def mainLoopIter (forkRes : Option Nat) (st : LoopState) : LoopState × List (Nat × ExitStatus) :=
  if st.need_reap then
    let r := drainLoop forkRes st.zombies st.reg
    (⟨false, [], r.1⟩, r.2)
  else (st, [])

/-- Observable steps of the shutdown path at the end of `main`. -/
inductive ShutdownStep
  | stopCall (idx : Nat)
  | syncCall
  | powerOffCall
deriving DecidableEq

/-- Embedding of the shutdown loop `for (i=0;i<nservices;i++)
stop_service(&services[i]);`: calls `stop_service` on each entry in
index order. `env i` is the stop-time wait behaviour of entry `i`'s
child. Returns the updated registry and the trace of stop calls. -/
def stopAll (env : Nat → Option Nat) : List service → Nat → List service × List ShutdownStep
  | [], _ => ([], [])
  | s :: rest, i =>
    let r := stop_service (env i) s
    let rs := stopAll env rest (i + 1)
    (r.svc :: rs.1, ShutdownStep.stopCall i :: rs.2)

/-- Embedding of the code run after the main loop observes the
terminate flag: stop every entry in load order, then `sync()`, then the
attempt to hand control to the power-off helper. -/
def shutdown_sequence (env : Nat → Option Nat) (reg : List service) : List service × List ShutdownStep :=
  let r := stopAll env reg 0
  (r.1, r.2 ++ [ShutdownStep.syncCall, ShutdownStep.powerOffCall])

/-- Steps the child of `start_service` performs before replacing its
image (each redirection is skipped when the corresponding open fails). -/
inductive ChildStep
  | redirStdinNull
  | redirOutErrLog (path : Str)
  | newSession
deriving DecidableEq

/-- Terminal fate of the child of `start_service`: either its image is
replaced by the interpreter running the command (it never executes
supervisor code again), or it terminates via `_exit` with the given
status. There is no constructor for returning into the supervisor: the
child's code path ends in `execl` or `_exit`. -/
inductive ChildOutcome
  | execed (cmd : Str)
  | exited (code : Nat)
deriving DecidableEq

/-- Embedding of the child branch of `start_service`: rebind stdin to
/dev/null and stdout/stderr to the log file (when the opens succeed),
start a new session, then replace the image with `sh -c execcmd`; if
the replacement fails, report and `_exit(127)`. -/
def start_child (openNullOk openLogOk execOk : Bool) (s : service) : List ChildStep × ChildOutcome :=
  ((if openNullOk then [ChildStep.redirStdinNull] else []) ++
    (if openLogOk then [ChildStep.redirOutErrLog s.logfile] else []) ++
    [ChildStep.newSession],
    if execOk then ChildOutcome.execed s.execcmd else ChildOutcome.exited 127)

/-! Concrete sample inputs used by witnesses. -/

/-- Sample service file: three lines, `Restart` given in upper case,
and whitespace around the `Name` key and value. -/
def demoLines3 : List Str :=
  ["Name = app".toList, "ExecStart=/bin/x".toList, "Restart=ALWAYS".toList]

/-- The service that `parse_service_file` produces from `demoLines3`. -/
def demoSvc3 : service :=
  { name := "app".toList
    execcmd := "/bin/x".toList
    restart := restart_t.R_ALWAYS
    pid := 0
    running := false
    logfile := "/var/log/app.log".toList }

/-- Minimal valid service file used for the capacity witness. -/
def demoFile : List Str := ["Name=a".toList, "ExecStart=b".toList]

/-- More valid service files than the registry capacity. -/
def demoFiles : List (List Str) := List.replicate 129 demoFile

/-- A registry entry currently marked running with pid 7. -/
def demoRunning : service :=
  { name := "svc".toList
    execcmd := "/bin/x".toList
    restart := restart_t.R_NO
    pid := 7
    running := true
    logfile := "/var/log/svc.log".toList }

/-- A running entry with policy `R_ALWAYS` and pid 5. -/
def demoAlways : service :=
  { name := "web".toList
    execcmd := "/bin/w".toList
    restart := restart_t.R_ALWAYS
    pid := 5
    running := true
    logfile := "/var/log/web.log".toList }

/-- A loop state with two finished children queued and the flag clear. -/
def demoLoopState : LoopState :=
  ⟨false, [(5, ExitStatus.exited 0), (6, ExitStatus.signaled 9)], []⟩

/-- A service file in which `Name` occurs twice and another recognized
key follows the second occurrence. -/
def demoLinesC10 : List Str :=
  ["Name=a".toList, "Name=b".toList, "ExecStart=c".toList]

/-- The service produced from `demoLinesC10`: it carries the second
`Name` value. -/
def demoSvcC10 : service :=
  { name := "b".toList
    execcmd := "c".toList
    restart := restart_t.R_NO
    pid := 0
    running := false
    logfile := "/var/log/b.log".toList }

/-! Lemmas about the parser. -/

lemma splitFirstEq_key (k v : Str) (hk : ∀ c ∈ k, (c == '=') = false) :
    splitFirstEq (k ++ '=' :: v) = some (k, v) := by
  induction k with
  | nil => simp [splitFirstEq]
  | cons c cs ih =>
    have hc := hk c (List.mem_cons_self c cs)
    simp [splitFirstEq, hc, ih fun d hd => hk d (List.mem_cons_of_mem _ hd)]

lemma strcaseEq_shift (r a b : Str) (h : strcaseEq r a = true) (hab : strcaseEq a b = false) :
    strcaseEq r b = false := by
  unfold strcaseEq at h hab ⊢
  have h1 : r.map asciiLower = a.map asciiLower := eq_of_beq h
  rw [h1]
  exact hab

lemma procLine_set_name (acc : ParseAcc) (k v : Str)
    (hk : ∀ c ∈ k, (c == '=') = false)
    (hkey : strcaseEq (trim k) ("name".toList) = true) :
    (procLine acc (k ++ '=' :: v)).name = (trim v).take NAME_CAP := by
  have h := splitFirstEq_key k v hk
  simp only [procLine, h]
  rw [if_pos hkey]

lemma procLine_set_exec (acc : ParseAcc) (k v : Str)
    (hk : ∀ c ∈ k, (c == '=') = false)
    (hkey : strcaseEq (trim k) ("execstart".toList) = true) :
    (procLine acc (k ++ '=' :: v)).exec = (trim v).take EXEC_CAP := by
  have h := splitFirstEq_key k v hk
  have hn : strcaseEq (trim k) ("name".toList) = false :=
    strcaseEq_shift _ _ _ hkey (by decide)
  simp only [procLine, h]
  rw [if_neg (ne_true_of_eq_false hn), if_pos hkey]

lemma procLine_set_restart (acc : ParseAcc) (k v : Str)
    (hk : ∀ c ∈ k, (c == '=') = false)
    (hkey : strcaseEq (trim k) ("restart".toList) = true) :
    (procLine acc (k ++ '=' :: v)).restart = (trim v).take EXEC_CAP := by
  have h := splitFirstEq_key k v hk
  have hn : strcaseEq (trim k) ("name".toList) = false :=
    strcaseEq_shift _ _ _ hkey (by decide)
  have he : strcaseEq (trim k) ("execstart".toList) = false :=
    strcaseEq_shift _ _ _ hkey (by decide)
  simp only [procLine, h]
  rw [if_neg (ne_true_of_eq_false hn), if_neg (ne_true_of_eq_false he), if_pos hkey]

lemma procLine_keep_name (acc : ParseAcc) (l : Str)
    (h : isKeyLine ("name".toList) l = false) :
    (procLine acc l).name = acc.name := by
  unfold isKeyLine at h
  unfold procLine
  cases hs : splitFirstEq l with
  | none => rfl
  | some kv =>
    obtain ⟨rk, rv⟩ := kv
    rw [hs] at h
    simp only at h
    simp only
    rw [if_neg (ne_true_of_eq_false h)]
    split
    · rfl
    · split
      · rfl
      · rfl

lemma procLine_keep_exec (acc : ParseAcc) (l : Str)
    (h : isKeyLine ("execstart".toList) l = false) :
    (procLine acc l).exec = acc.exec := by
  unfold isKeyLine at h
  unfold procLine
  cases hs : splitFirstEq l with
  | none => rfl
  | some kv =>
    obtain ⟨rk, rv⟩ := kv
    rw [hs] at h
    simp only at h
    simp only
    split
    · rfl
    · rw [if_neg (ne_true_of_eq_false h)]
      split
      · rfl
      · rfl

lemma procLine_keep_restart (acc : ParseAcc) (l : Str)
    (h : isKeyLine ("restart".toList) l = false) :
    (procLine acc l).restart = acc.restart := by
  unfold isKeyLine at h
  unfold procLine
  cases hs : splitFirstEq l with
  | none => rfl
  | some kv =>
    obtain ⟨rk, rv⟩ := kv
    rw [hs] at h
    simp only at h
    simp only
    split
    · rfl
    · split
      · rfl
      · rw [if_neg (ne_true_of_eq_false h)]

lemma foldl_keep_name (ls : List Str) :
    ∀ acc : ParseAcc, (∀ l ∈ ls, isKeyLine ("name".toList) l = false) →
      (ls.foldl procLine acc).name = acc.name := by
  induction ls with
  | nil => intro acc _; rfl
  | cons l ls ih =>
    intro acc h
    have h1 := h l (List.mem_cons_self l ls)
    have h2 := ih (procLine acc l) fun u hu => h u (List.mem_cons_of_mem _ hu)
    simp only [List.foldl_cons]
    rw [h2, procLine_keep_name acc l h1]

lemma foldl_keep_exec (ls : List Str) :
    ∀ acc : ParseAcc, (∀ l ∈ ls, isKeyLine ("execstart".toList) l = false) →
      (ls.foldl procLine acc).exec = acc.exec := by
  induction ls with
  | nil => intro acc _; rfl
  | cons l ls ih =>
    intro acc h
    have h1 := h l (List.mem_cons_self l ls)
    have h2 := ih (procLine acc l) fun u hu => h u (List.mem_cons_of_mem _ hu)
    simp only [List.foldl_cons]
    rw [h2, procLine_keep_exec acc l h1]

lemma foldl_keep_restart (ls : List Str) :
    ∀ acc : ParseAcc, (∀ l ∈ ls, isKeyLine ("restart".toList) l = false) →
      (ls.foldl procLine acc).restart = acc.restart := by
  induction ls with
  | nil => intro acc _; rfl
  | cons l ls ih =>
    intro acc h
    have h1 := h l (List.mem_cons_self l ls)
    have h2 := ih (procLine acc l) fun u hu => h u (List.mem_cons_of_mem _ hu)
    simp only [List.foldl_cons]
    rw [h2, procLine_keep_restart acc l h1]

lemma procLine_name_len (acc : ParseAcc) (l : Str) (h : acc.name.length ≤ NAME_CAP) :
    (procLine acc l).name.length ≤ NAME_CAP := by
  unfold procLine
  cases hs : splitFirstEq l with
  | none => simp only []; exact h
  | some kv =>
    simp only
    split
    · exact List.length_take_le ..
    · split
      · exact h
      · split
        · exact h
        · exact h

lemma parseAccOf_name_len (lines : List Str) : (parseAccOf lines).name.length ≤ NAME_CAP := by
  suffices h : ∀ acc : ParseAcc, acc.name.length ≤ NAME_CAP →
      (lines.foldl procLine acc).name.length ≤ NAME_CAP by
    simpa [parseAccOf] using h initAcc (by decide)
  induction lines with
  | nil => intro acc h; exact h
  | cons l ls ih => intro acc h; exact ih _ (procLine_name_len acc l h)

lemma strcaseEq_excl (r : Str) (h : strcaseEq r ("always".toList) = true) :
    strcaseEq r ("on-failure".toList) = false := by
  unfold strcaseEq at h ⊢
  have h1 : r.map asciiLower = ("always".toList).map asciiLower := eq_of_beq h
  rw [h1]
  decide

lemma loadInto_take (files : List (List Str)) :
    ∀ reg : List service, reg.length ≤ MAX_SVC →
      loadInto reg files = reg ++ (files.filterMap parse_service_file).take (MAX_SVC - reg.length) := by
  induction files with
  | nil => intro reg h; simp [loadInto]
  | cons f fs ih =>
    intro reg h
    unfold loadInto
    cases hp : parse_service_file f with
    | none => simp [List.filterMap_cons, hp, ih reg h]
    | some s =>
      simp only
      by_cases hc : MAX_SVC ≤ reg.length
      · have hlen : reg.length = MAX_SVC := le_antisymm h hc
        rw [if_pos hc, ih reg h]
        simp [List.filterMap_cons, hp, hlen]
      · rw [if_neg hc]
        have h1 : (reg ++ [s]).length ≤ MAX_SVC := by
          simp only [List.length_append, List.length_cons, List.length_nil]
          omega
        rw [ih (reg ++ [s]) h1]
        have h2 : MAX_SVC - reg.length = (MAX_SVC - (reg ++ [s]).length) + 1 := by
          simp only [List.length_append, List.length_cons, List.length_nil]
          omega
        simp [List.filterMap_cons, hp, h2, List.take_succ_cons]

lemma load_services_eq (files : List (List Str)) :
    load_services files = (files.filterMap parse_service_file).take MAX_SVC := by
  have h := loadInto_take files [] (by simp [MAX_SVC])
  simpa [load_services] using h

/-- C3: a file's lines yield exactly one Service iff both the Name and
ExecStart buffers end up non-empty after trimming; when a Service is
produced its policy is Always for a Restart value matching "always"
case-insensitively, OnFailure for one matching "on-failure", and Never
otherwise; an invalid file yields none (no error channel exists). -/
theorem C3_parse_service (lines : List Str) :
    ((parse_service_file lines).isSome ↔
      ((parseAccOf lines).name ≠ [] ∧ (parseAccOf lines).exec ≠ []))
    ∧ ∀ s, parse_service_file lines = some s →
        ((strcaseEq (parseAccOf lines).restart ("always".toList) = true →
            s.restart = restart_t.R_ALWAYS)
          ∧ (strcaseEq (parseAccOf lines).restart ("on-failure".toList) = true →
            s.restart = restart_t.R_ON_FAILURE)
          ∧ (strcaseEq (parseAccOf lines).restart ("always".toList) = false →
              strcaseEq (parseAccOf lines).restart ("on-failure".toList) = false →
            s.restart = restart_t.R_NO)) := by
  constructor
  · unfold parse_service_file
    split
    · next hcond =>
      simp only [Option.isSome_none, Bool.false_eq_true, false_iff]
      tauto
    · next hcond =>
      simp only [Option.isSome_some, true_iff]
      tauto
  · intro s hs
    unfold parse_service_file at hs
    split at hs
    · exact absurd hs (by simp)
    · have hr : s.restart = restartOf (parseAccOf lines).restart := by
        have := Option.some.inj hs
        rw [← this]
      refine ⟨?_, ?_, ?_⟩
      · intro h1
        rw [hr]
        unfold restartOf
        rw [if_pos h1]
      · intro h2
        have h1 : strcaseEq (parseAccOf lines).restart ("always".toList) = false := by
          cases hA : strcaseEq (parseAccOf lines).restart ("always".toList) with
          | false => rfl
          | true => rw [strcaseEq_excl _ hA] at h2; exact absurd h2 (by simp)
        rw [hr]
        unfold restartOf
        rw [if_neg (ne_true_of_eq_false h1), if_pos h2]
      · intro h1 h2
        rw [hr]
        unfold restartOf
        rw [if_neg (ne_true_of_eq_false h1), if_neg (ne_true_of_eq_false h2)]

/-- Witness for C3 at a concrete service file: `demoLines3` parses to a
Service and its Restart value "ALWAYS" resolves to the Always policy. -/
theorem C3_parse_service_witness :
    (parse_service_file demoLines3).isSome ∧ demoSvc3.restart = restart_t.R_ALWAYS :=
  ⟨(C3_parse_service demoLines3).1.mpr (by decide),
    ((C3_parse_service demoLines3).2 demoSvc3 (by decide)).1 (by decide)⟩

/-- C5: when the directory holds more valid service definitions than
the registry capacity MAX_SVC, loading retains exactly the first
MAX_SVC valid entries in enumeration order and silently ignores every
later file (the registry equals the capacity-bounded prefix of the
parsed files). -/
theorem C5_capacity (files : List (List Str))
    (h : MAX_SVC < (files.filterMap parse_service_file).length) :
    load_services files = (files.filterMap parse_service_file).take MAX_SVC
    ∧ (load_services files).length = MAX_SVC := by
  refine ⟨load_services_eq files, ?_⟩
  rw [load_services_eq files, List.length_take]
  omega

set_option maxRecDepth 10000 in
/-- Witness for C5: 129 copies of a valid service file exceed the
capacity of 128, and loading them keeps exactly 128 entries. -/
theorem C5_capacity_witness :
    MAX_SVC < (demoFiles.filterMap parse_service_file).length
    ∧ (load_services demoFiles = (demoFiles.filterMap parse_service_file).take MAX_SVC
      ∧ (load_services demoFiles).length = MAX_SVC) :=
  ⟨by decide, C5_capacity demoFiles (by decide)⟩

/-- C10: when a recognized key occurs on more than one line, the last
occurrence wins: for any file of the form earlier-lines, then a
`key=value` line (the key in any case spelling), then any later lines
none of which is recognized as the same key, the final buffer for that
key holds exactly that occurrence's trimmed (and truncated) value —
overwriting whatever the earlier lines put there — and the produced
Service carries exactly the final buffer contents. -/
theorem C10_last_occurrence_wins :
    (∀ (ls1 ls2 : List Str) (k v : Str), (∀ c ∈ k, (c == '=') = false) →
        strcaseEq (trim k) ("name".toList) = true →
        (∀ l ∈ ls2, isKeyLine ("name".toList) l = false) →
        (parseAccOf (ls1 ++ (k ++ '=' :: v) :: ls2)).name = (trim v).take NAME_CAP)
    ∧ (∀ (ls1 ls2 : List Str) (k v : Str), (∀ c ∈ k, (c == '=') = false) →
        strcaseEq (trim k) ("execstart".toList) = true →
        (∀ l ∈ ls2, isKeyLine ("execstart".toList) l = false) →
        (parseAccOf (ls1 ++ (k ++ '=' :: v) :: ls2)).exec = (trim v).take EXEC_CAP)
    ∧ (∀ (ls1 ls2 : List Str) (k v : Str), (∀ c ∈ k, (c == '=') = false) →
        strcaseEq (trim k) ("restart".toList) = true →
        (∀ l ∈ ls2, isKeyLine ("restart".toList) l = false) →
        (parseAccOf (ls1 ++ (k ++ '=' :: v) :: ls2)).restart = (trim v).take EXEC_CAP)
    ∧ ∀ lines s, parse_service_file lines = some s →
        (s.name = (parseAccOf lines).name ∧ s.execcmd = (parseAccOf lines).exec
          ∧ s.restart = restartOf (parseAccOf lines).restart) := by
  refine ⟨?_, ?_, ?_, ?_⟩
  · intro ls1 ls2 k v hk hkey h2
    simp only [parseAccOf, List.foldl_append, List.foldl_cons]
    rw [foldl_keep_name ls2 _ h2, procLine_set_name _ k v hk hkey]
  · intro ls1 ls2 k v hk hkey h2
    simp only [parseAccOf, List.foldl_append, List.foldl_cons]
    rw [foldl_keep_exec ls2 _ h2, procLine_set_exec _ k v hk hkey]
  · intro ls1 ls2 k v hk hkey h2
    simp only [parseAccOf, List.foldl_append, List.foldl_cons]
    rw [foldl_keep_restart ls2 _ h2, procLine_set_restart _ k v hk hkey]
  · intro lines s hs
    unfold parse_service_file at hs
    split at hs
    · exact absurd hs (by simp)
    · have he := Option.some.inj hs
      rw [← he]
      refine ⟨?_, rfl, rfl⟩
      exact List.take_of_length_le (parseAccOf_name_len lines)

/-- Witness for C10 at the file Name=a, Name=b, ExecStart=c: the second
`Name` occurrence overwrites the first even though another recognized
key follows it, and the produced Service carries the final buffer. -/
theorem C10_last_occurrence_wins_witness :
    ((parseAccOf (["Name=a".toList] ++ ("Name".toList ++ '=' :: ("b".toList)) :: ["ExecStart=c".toList])).name
      = (trim ("b".toList)).take NAME_CAP)
    ∧ demoSvcC10.name = (parseAccOf demoLinesC10).name :=
  ⟨C10_last_occurrence_wins.1 ["Name=a".toList] ["ExecStart=c".toList] ("Name".toList) ("b".toList)
      (by decide) (by decide) (by decide),
    (C10_last_occurrence_wins.2.2.2 demoLinesC10 demoSvcC10 (by decide)).1⟩

/-! Lemmas about exit handling, the drain pass and shutdown. -/

lemma handle_reaped_skip (forkRes : Option Nat) (pre rest : List service) (p : Nat) (st : ExitStatus)
    (hpre : ∀ t ∈ pre, ¬(t.running = true ∧ t.pid = p)) :
    handle_reaped forkRes (pre ++ rest) p st =
      (pre ++ (handle_reaped forkRes rest p st).1, (handle_reaped forkRes rest p st).2) := by
  induction pre with
  | nil => simp [handle_reaped]
  | cons t ts ih =>
    have ht := hpre t (List.mem_cons_self t ts)
    have ih' := ih fun u hu => hpre u (List.mem_cons_of_mem _ hu)
    simp [handle_reaped, ht, ih']

lemma drainLoop_dispatch (forkRes : Option Nat) (zs : List (Nat × ExitStatus)) :
    ∀ reg, (drainLoop forkRes zs reg).2 = zs := by
  induction zs with
  | nil => intro reg; rfl
  | cons z zt ih => intro reg; simp [drainLoop, ih]

lemma sigchld_iter_flag (n : Nat) (st : LoopState) (h : 1 ≤ n) :
    (sigchld_handler^[n] st).need_reap = true := by
  cases n with
  | zero => omega
  | succ m => rw [Function.iterate_succ_apply']; rfl

lemma sigchld_iter_zombies (n : Nat) (st : LoopState) :
    (sigchld_handler^[n] st).zombies = st.zombies := by
  induction n with
  | zero => rfl
  | succ m ih => rw [Function.iterate_succ_apply']; simpa [sigchld_handler] using ih

lemma sigchld_iter_reg (n : Nat) (st : LoopState) :
    (sigchld_handler^[n] st).reg = st.reg := by
  induction n with
  | zero => rfl
  | succ m ih => rw [Function.iterate_succ_apply']; simpa [sigchld_handler] using ih

lemma stopAll_steps (env : Nat → Option Nat) (reg : List service) :
    ∀ i, (stopAll env reg i).2
      = (List.range reg.length).map fun j => ShutdownStep.stopCall (i + j) := by
  induction reg with
  | nil => intro i; rfl
  | cons s rest ih =>
    intro i
    simp only [stopAll, List.length_cons, List.range_succ_eq_map, List.map_cons, List.map_map,
      ih (i + 1)]
    have hf : ((fun j => ShutdownStep.stopCall (i + j)) ∘ Nat.succ)
        = fun j => ShutdownStep.stopCall (i + 1 + j) := by
      funext j
      simp only [Function.comp_apply]
      congr 1
      omega
    rw [hf]
    simp

/-! Claim theorems about the process lifecycle. -/

/-- C1 (claim refuted at the shown input, supporting the code_bug
verdict): when a running entry's child terminates before the first poll
of the grace loop, the loop reaps it within the polling window, yet the
unconditional kill signal is still sent, because the post-loop
`waitpid(pid,NULL,WNOHANG)` can only return ECHILD for an
already-reaped pid and so never equals the pid on that path. The claim
states that no kill signal is sent when the termination is observed
during the polling window. -/
theorem C1_kill_despite_inwindow_reap :
    (stopPoll (some 0) 50 0).1 = true
    ∧ (stop_service (some 0) demoRunning).killSent = true := by decide

/-- C2: for a running entry matched by pid, `handle_reaped` performs no
relaunch under policy Never; exactly one relaunch, preceded by the
fixed 1-second backoff, under policy Always regardless of status; and
under OnFailure exactly one relaunch (with the same backoff) iff the
exit was signal-caused or its reported code is non-zero. -/
theorem C2_restart_policy (forkRes : Option Nat) (pre post : List service) (s : service)
    (p : Nat) (st : ExitStatus)
    (hpre : ∀ t ∈ pre, ¬(t.running = true ∧ t.pid = p))
    (hrun : s.running = true) (hpid : s.pid = p) :
    ((s.restart = restart_t.R_NO →
        (handle_reaped forkRes (pre ++ s :: post) p st).2 = [])
      ∧ (s.restart = restart_t.R_ALWAYS →
        (handle_reaped forkRes (pre ++ s :: post) p st).2
          = [SupAction.backoff 1, SupAction.startCall s.name])
      ∧ (s.restart = restart_t.R_ON_FAILURE →
        (handle_reaped forkRes (pre ++ s :: post) p st).2
          = if WIFEXITED st = true ∧ WEXITSTATUS st = 0 then []
            else [SupAction.backoff 1, SupAction.startCall s.name])) := by
  rw [handle_reaped_skip forkRes pre (s :: post) p st hpre]
  have hcond : s.running = true ∧ s.pid = p := ⟨hrun, hpid⟩
  refine ⟨?_, ?_, ?_⟩
  · intro hres
    simp [handle_reaped, hcond, hres]
  · intro hres
    simp [handle_reaped, hcond, hres]
  · intro hres
    cases st with
    | exited c =>
      by_cases hc : c = 0 <;>
        simp [handle_reaped, hcond, hres, WIFEXITED, WEXITSTATUS, hc]
    | signaled sig =>
      simp [handle_reaped, hcond, hres, WIFEXITED, WEXITSTATUS]

/-- Witness for C2: a one-entry registry with policy Always and a clean
exit still triggers exactly one backoff-then-relaunch. -/
theorem C2_restart_policy_witness :
    (handle_reaped (some 9) ([] ++ demoAlways :: []) 5 (ExitStatus.exited 0)).2
      = [SupAction.backoff 1, SupAction.startCall demoAlways.name] :=
  (C2_restart_policy (some 9) [] [] demoAlways 5 (ExitStatus.exited 0)
    (by simp) (by decide) (by decide)).2.1 (by decide)

/-- C4: however many child-termination notifications were coalesced
into one flag setting (any n of at least 1 handler invocations), a
single observed pass of the main loop clears the flag and dispatches
every finished pid+status pair to the exit handler exactly once, in
reap order, leaving no finished child unreaped. -/
theorem C4_single_drain_pass (forkRes : Option Nat) (n : Nat) (st : LoopState) (h : 1 ≤ n) :
    ((mainLoopIter forkRes (sigchld_handler^[n] st)).2 = st.zombies
      ∧ (mainLoopIter forkRes (sigchld_handler^[n] st)).1.zombies = []
      ∧ (mainLoopIter forkRes (sigchld_handler^[n] st)).1.need_reap = false) := by
  refine ⟨?_, ?_, ?_⟩ <;>
    simp [mainLoopIter, sigchld_iter_flag n st h, sigchld_iter_zombies, drainLoop_dispatch]

/-- Witness for C4: two coalesced notifications before the flag is
observed; one drain pass dispatches both queued exits. -/
theorem C4_single_drain_pass_witness :
    ((mainLoopIter none (sigchld_handler^[2] demoLoopState)).2 = demoLoopState.zombies
      ∧ (mainLoopIter none (sigchld_handler^[2] demoLoopState)).1.zombies = []
      ∧ (mainLoopIter none (sigchld_handler^[2] demoLoopState)).1.need_reap = false) :=
  C4_single_drain_pass none 2 demoLoopState (by decide)

/-- C6: the shutdown path calls stop on every registry entry strictly
in load order (indices 0 through nservices-1), then issues the
filesystem sync, and only after the sync attempts the power-off
helper. -/
theorem C6_shutdown_order (env : Nat → Option Nat) (reg : List service) :
    (shutdown_sequence env reg).2 =
      ((List.range reg.length).map ShutdownStep.stopCall)
        ++ [ShutdownStep.syncCall, ShutdownStep.powerOffCall] := by
  unfold shutdown_sequence
  simp only [stopAll_steps env reg 0]
  simp

/-- C7: when the image-replacement step fails in the child of
`start_service`, the child's outcome is termination with status 127;
the outcome type has no constructor for resuming supervisor code, so
the child never returns into the main loop nor touches the registry
(which the child function cannot even reference). -/
theorem C7_exec_failure_exits_127 (openNullOk openLogOk : Bool) (s : service) :
    (start_child openNullOk openLogOk false s).2 = ChildOutcome.exited 127 := rfl

/-- C8: stop is idempotent: a first call on a running entry performs
the termination sequence (the graceful signal is sent) and marks the
entry not running; a second call observes not-running and returns
without sending any signal and without changing the entry. -/
theorem C8_stop_idempotent (e1 e2 : Option Nat) (s : service) (h : s.running = true) :
    (stop_service e1 s).termSent = true
    ∧ stop_service e2 (stop_service e1 s).svc
        = ⟨(stop_service e1 s).svc, false, false⟩ := by
  unfold stop_service
  rw [if_pos h]
  refine ⟨rfl, ?_⟩
  rw [if_neg (by simp)]

/-- Witness for C8 on a concrete running entry. -/
theorem C8_stop_idempotent_witness :
    (stop_service none demoRunning).termSent = true
    ∧ stop_service none (stop_service none demoRunning).svc
        = ⟨(stop_service none demoRunning).svc, false, false⟩ :=
  C8_stop_idempotent none none demoRunning (by decide)

/-- C9: an exit whose pid matches no running entry leaves the whole
registry (every field of every entry, and its length) unchanged and
performs no supervisor action: the reap only released the zombie. -/
theorem C9_orphan_pid (forkRes : Option Nat) (reg : List service) (p : Nat) (st : ExitStatus)
    (h : ∀ t ∈ reg, ¬(t.running = true ∧ t.pid = p)) :
    handle_reaped forkRes reg p st = (reg, []) := by
  induction reg with
  | nil => rfl
  | cons t ts ih =>
    have ht := h t (List.mem_cons_self t ts)
    have ih' := ih fun u hu => h u (List.mem_cons_of_mem _ hu)
    simp [handle_reaped, ht, ih']

/-- Witness for C9: pid 99 matches no entry of a one-entry registry;
the registry is returned unchanged with no actions. -/
theorem C9_orphan_pid_witness :
    handle_reaped none [demoAlways] 99 (ExitStatus.exited 1) = ([demoAlways], []) :=
  C9_orphan_pid none [demoAlways] 99 (ExitStatus.exited 1) (by decide)

end RatOSInit
